import Mathlib

/-!
# Verification of `src/train.py` (Lesion-boundary-segmentation)

A shallow embedding of the configuration-resolution, settings-string parsing,
preprocessing-pipeline dispatch, weight saving, generator step counting and
test-metric computation of `Trainer` in `src/train.py`, together with proofs
about the claims of the specification.

Conventions of the embedding:
* Python numbers are idealised as `ℤ` (int) and `ℚ` (float); float division is
  `ℚ` division (all claims proved under hypotheses that exclude the
  division-by-zero / NaN cases of the source).
* Python dicts are association lists with pairwise-distinct keys
  (`List (String × PVal)`); `dict[k] = v` keeps the position of an existing key
  and appends a fresh one, exactly as CPython insertion order does.
* Fallible Python code (a raised exception) is `Option`, `none` being an
  uncaught exception.
-/

set_option maxRecDepth 16000

namespace LesionSeg

/-! ## Test-metric loop (`Trainer.test_model_additional_metrics`)

One test sample, after the per-sample binarisation of the source
(`d = mask > 0.5`; `r` = Otsu-thresholded prediction, divided by 255 and
compared with 0.5), is a flattened list of pixel pairs `(d i, r i)`:
first component the binarised ground-truth pixel, second the binarised
predicted pixel.  Otsu thresholding itself (`cv2.threshold`) is an external
library call; the loop is embedded from the binarised masks onward, which is
exactly the data the accumulation logic of lines 340-367 consumes. -/

/-- A flattened pair of binarised masks: `(ground truth pixel, predicted pixel)`. -/
def Sample : Type := List (Bool × Bool)

/-- `np.logical_and(d, r).sum()` — intersection pixel count. -/
def interCount (s : Sample) : ℕ := List.countP (fun p => p.1 && p.2) s

/-- `np.logical_or(d, r).sum()` — union pixel count. -/
def unionCount (s : Sample) : ℕ := List.countP (fun p => p.1 || p.2) s

/-- `tn` cell of `sklearn.metrics.confusion_matrix(d, r)`. -/
def tnCount (s : Sample) : ℕ := List.countP (fun p => !p.1 && !p.2) s

/-- `fp` cell of `sklearn.metrics.confusion_matrix(d, r)`. -/
def fpCount (s : Sample) : ℕ := List.countP (fun p => !p.1 && p.2) s

/-- `fn` cell of `sklearn.metrics.confusion_matrix(d, r)`. -/
def fnCount (s : Sample) : ℕ := List.countP (fun p => p.1 && !p.2) s

/-- `tp` cell of `sklearn.metrics.confusion_matrix(d, r)`; identical to the
intersection count. -/
def tpCount (s : Sample) : ℕ := List.countP (fun p => p.1 && p.2) s

/-- Both boolean classes occur somewhere in the pair of flattened masks.
`sklearn.metrics.confusion_matrix(d, r)` is a 2×2 matrix (so its `.ravel()`
unpacks into four values) exactly when both labels `False` and `True` occur
among the values of `d` and `r`; otherwise it collapses to a single cell and
the four-way unpack of line 357 raises `ValueError`. -/
def bothClassesPresent (s : Sample) : Bool :=
  (s.any fun p => p.1 || p.2) && (s.any fun p => !p.1 || !p.2)

/-- `sklearn.metrics.jaccard_score(d, r)` on binarised masks: `tp/(tp+fp+fn)`,
i.e. intersection over union, with sklearn's `zero_division` default of `0`
(which coincides with `ℚ`'s division-by-zero convention). -/
def jaccard_score (s : Sample) : ℚ := (interCount s : ℚ) / (unionCount s : ℚ)

/-- The accumulator of the loop of `test_model_additional_metrics`
(line 340: `jacc_sum = tn = tp = fp = fn = test_jacc_sum =
test_jacc_above_thresh = 0`). -/
structure MetricState where
  jacc_sum : ℚ
  tn : ℕ
  tp : ℕ
  fp : ℕ
  fn : ℕ
  test_jacc_sum : ℚ
  test_jacc_above_thresh : ℕ
  deriving Repr, DecidableEq

/-- The zero-initialised accumulator of line 340. -/
def initMetricState : MetricState := ⟨0, 0, 0, 0, 0, 0, 0⟩

/-- One iteration of the `for r, mask in zip(results, test_masks)` loop
(lines 342-367), starting from the binarised masks.  The iteration fails
(`none`) when `confusion_matrix(d, r).ravel()` does not produce four values.
Note that the `>= 0.65` comparison of line 364 reads `test_jacc_sum` *before*
line 367 adds the current sample's `jaccard_score` to it. -/
def metricStep (st : MetricState) (s : Sample) : Option MetricState :=
  if bothClassesPresent s then
    some {
      jacc_sum := st.jacc_sum + (interCount s : ℚ) / (unionCount s : ℚ)
      tn := st.tn + tnCount s
      tp := st.tp + tpCount s
      fp := st.fp + fpCount s
      fn := st.fn + fnCount s
      test_jacc_sum := st.test_jacc_sum + jaccard_score s
      test_jacc_above_thresh :=
        if (13 : ℚ)/20 ≤ st.test_jacc_sum then st.test_jacc_above_thresh + 1
        else st.test_jacc_above_thresh }
  else none

/-- The whole accumulation loop of `test_model_additional_metrics` over the
list of binarised test samples. -/
def runMetrics (samples : List Sample) : Option MetricState :=
  List.foldlM metricStep initMetricState samples

/-- `test_sensitivity = tp / (tp + fn)` (line 369). -/
def test_sensitivity (st : MetricState) : ℚ := (st.tp : ℚ) / ((st.tp : ℚ) + (st.fn : ℚ))

/-- `test_specifitivity = tn / (tn + fp)` (line 370). -/
def test_specifitivity (st : MetricState) : ℚ := (st.tn : ℚ) / ((st.tn : ℚ) + (st.fp : ℚ))

/-- `test_accuracy = (tp + tn) / (tp + tn + fp + fn)` (line 371). -/
def test_accuracy (st : MetricState) : ℚ :=
  ((st.tp : ℚ) + (st.tn : ℚ)) / ((st.tp : ℚ) + (st.tn : ℚ) + (st.fp : ℚ) + (st.fn : ℚ))

/-- `test_dsc = 2*tp / (2*tp + fp + fn)` (line 372). -/
def test_dsc (st : MetricState) : ℚ :=
  (2 * (st.tp : ℚ)) / (2 * (st.tp : ℚ) + (st.fp : ℚ) + (st.fn : ℚ))

/-- `test_jaccard_score = test_jacc_sum / len(results)` (line 373). -/
def test_jaccard_score_mean (st : MetricState) (n : ℕ) : ℚ := st.test_jacc_sum / (n : ℚ)

/-- `test_precision = tp / (tp + fp)` (line 374). -/
def test_precision (st : MetricState) : ℚ := (st.tp : ℚ) / ((st.tp : ℚ) + (st.fp : ℚ))

/-- `mean_jaccard_index = jacc_sum / len(results)` (line 378). -/
def mean_jaccard_index (st : MetricState) (n : ℕ) : ℚ := st.jacc_sum / (n : ℚ)

/-- `isic_eval_score = test_jacc_above_thresh / len(results)` (lines 387, 398). -/
def isic_eval_score (st : MetricState) (n : ℕ) : ℚ := (st.test_jacc_above_thresh : ℚ) / (n : ℚ)

/-- The vector returned on line 400:
`[test_accuracy, test_jaccard_score, test_precision, test_sensitivity,
test_specifitivity]`. -/
def returned_vector (st : MetricState) (n : ℕ) : List ℚ :=
  [test_accuracy st, test_jaccard_score_mean st n, test_precision st,
   test_sensitivity st, test_specifitivity st]

/-- The number of loop iterations at which the guard `test_jacc_sum >= 0.65`
of line 364 fires, given the starting value `acc` of `test_jacc_sum` and the
list of per-sample `jaccard_score` values in iteration order. -/
def isicCount (acc : ℚ) : List ℚ → ℕ
  | [] => 0
  | x :: xs => (if (13 : ℚ)/20 ≤ acc then 1 else 0) + isicCount (acc + x) xs

/-- A two-sample test set: one perfect match, one fully disjoint pair. -/
def exSamples : List Sample := [[(true, true), (false, false)], [(true, false), (false, true)]]

/-- The accumulator produced by the metric pass over `exSamples`. -/
def exState : MetricState := ⟨1, 1, 1, 1, 1, 1, 1⟩

/-! ## Configuration dictionaries (`Trainer.__init__`,
`Trainer.load_prep_from_settings_string`)

Python dict values occurring in the configuration dictionaries are ints,
floats, strings or booleans.  Dicts are association lists with
pairwise-distinct keys; assignment to an existing key keeps its position,
assignment to a fresh key appends (CPython insertion-order semantics). -/

/-- A Python value stored in one of the `Trainer` configuration dicts. -/
inductive PVal where
  | pInt (n : ℤ)
  | pFloat (q : ℚ)
  | pStr (s : String)
  | pBool (b : Bool)
  deriving Repr, DecidableEq

/-- A Python dict of `PVal`s. -/
abbrev Dict : Type := List (String × PVal)

/-- `d[k] = v`: replace in place when the key exists, append otherwise. -/
def updateDict (d : Dict) (k : String) (v : PVal) : Dict :=
  if d.any fun kv => kv.1 == k then
    d.map fun kv => if kv.1 == k then (k, v) else kv
  else d ++ [(k, v)]

/-- `for key, value in overrides.items(): d[key] = value`. -/
def mergeDict (d overrides : Dict) : Dict :=
  overrides.foldl (fun acc kv => updateDict acc kv.1 kv.2) d

/-- `d[k]` as an `Option` (`none` would be a `KeyError`). -/
def dictGet (d : Dict) (k : String) : Option PVal :=
  (d.find? fun kv => kv.1 == k).map fun kv => kv.2

/-- Decimal exponent of a rational: the least `k` with `den ∣ 10^k`, searched
up to `10^1100` (every IEEE double is `n/2^e` with `e ≤ 1074`, so every float
value the source can hold is found). -/
def decExp (den : ℕ) : Option ℕ :=
  (List.range 1100).find? fun k => decide (den ∣ 10 ^ k)

/-- Left-pad a digit string with zeros to length `k`. -/
def padZeros (s : String) (k : ℕ) : String :=
  String.mk (List.replicate (k - s.length) '0') ++ s

/-- `str()` of a CPython float, idealised over `ℚ`: magnitudes in
`[1e-4, 1e16)` (and zero) print as a plain signed decimal with at least one
fractional digit; magnitudes outside that window print in exponent notation
(modelled as a marker string containing `e`, whose exact digits no claim
depends on); non-float rationals cannot occur as Python float values and fall
back to `num/den`. -/
def floatRepr (q : ℚ) : String :=
  if q = 0 then "0.0"
  else if |q| < mkRat 1 10000 ∨ mkRat (10 ^ 16) 1 ≤ |q| then
    toString q.num ++ "e" ++ toString q.den
  else
    match decExp q.den with
    | some k0 =>
        let k := max k0 1
        let m := q.num.natAbs * 10 ^ k / q.den
        (if q.num < 0 then "-" else "")
          ++ toString (m / 10 ^ k) ++ "." ++ padZeros (toString (m % 10 ^ k)) k
    | none => toString q.num ++ "/" ++ toString q.den

/-- Python `str()` of a configuration value. -/
def pyRepr : PVal → String
  | .pInt n => toString n
  | .pFloat q => floatRepr q
  | .pStr s => s
  | .pBool b => if b then "True" else "False"

/-- Drop the first `'.'` of a character list: `str.replace('.', '', 1)`. -/
def removeFirstDot : List Char → List Char
  | [] => []
  | c :: cs => if c = '.' then cs else c :: removeFirstDot cs

/-- Python `str.isdigit()` (ASCII digits; the source only ever holds ASCII). -/
def pyIsDigit (s : List Char) : Bool := !s.isEmpty && s.all Char.isDigit

/-- The multiplicability test of line 108:
`str(value).replace('.', '', 1).isdigit()`. -/
def digitCheck (s : String) : Bool := pyIsDigit (removeFirstDot s.toList)

/-- Python string repetition `s * n` (empty for `n ≤ 0`). -/
def strRepeat (s : String) (n : ℤ) : String := String.join (List.replicate n.toNat s)

/-- Python `bool` as an `int` (`True == 1`, `False == 0`). -/
def boolInt (b : Bool) : ℤ := if b then 1 else 0

/-- Python `value * factor` on configuration values; `none` is a `TypeError`
(string times float, string times string). -/
def pyMul : PVal → PVal → Option PVal
  | .pInt a, .pInt b => some (.pInt (a * b))
  | .pInt a, .pFloat q => some (.pFloat ((a : ℚ) * q))
  | .pInt a, .pBool b => some (.pInt (a * boolInt b))
  | .pInt a, .pStr s => some (.pStr (strRepeat s a))
  | .pFloat q, .pInt b => some (.pFloat (q * (b : ℚ)))
  | .pFloat q, .pFloat r => some (.pFloat (q * r))
  | .pFloat q, .pBool b => some (.pFloat (q * (boolInt b : ℚ)))
  | .pFloat _, .pStr _ => none
  | .pBool a, .pInt b => some (.pInt (boolInt a * b))
  | .pBool a, .pFloat q => some (.pFloat ((boolInt a : ℚ) * q))
  | .pBool a, .pBool b => some (.pInt (boolInt a * boolInt b))
  | .pBool a, .pStr s => some (.pStr (strRepeat s (boolInt a)))
  | .pStr s, .pInt n => some (.pStr (strRepeat s n))
  | .pStr _, .pFloat _ => none
  | .pStr s, .pBool b => some (.pStr (strRepeat s (boolInt b)))
  | .pStr _, .pStr _ => none

/-- Python `aug_factor != 1` (note `True == 1` and `1.0 == 1` in Python). -/
def pyNeOne : PVal → Bool
  | .pInt n => decide (n ≠ 1)
  | .pFloat q => decide (q ≠ 1)
  | .pBool b => !b
  | .pStr _ => true

/-- `self.augument` defaults (lines 58-68). -/
def augument_default : Dict :=
  [("rotation_range", .pInt 30), ("zoom_range", .pFloat (mkRat 1 10)),
   ("width_shift_range", .pFloat (mkRat 1 10)), ("height_shift_range", .pFloat (mkRat 1 10)),
   ("fill_mode", .pStr "constant"), ("cval", .pFloat (mkRat 0 1)),
   ("shear_range", .pFloat (mkRat 1 5)), ("horizontal_flip", .pBool true),
   ("vertical_flip", .pBool true)]

/-- `self.augument_mask` defaults (lines 69-79); textually identical to the
image-augmentation defaults. -/
def augument_mask_default : Dict :=
  [("rotation_range", .pInt 30), ("zoom_range", .pFloat (mkRat 1 10)),
   ("width_shift_range", .pFloat (mkRat 1 10)), ("height_shift_range", .pFloat (mkRat 1 10)),
   ("fill_mode", .pStr "constant"), ("cval", .pFloat (mkRat 0 1)),
   ("shear_range", .pFloat (mkRat 1 5)), ("horizontal_flip", .pBool true),
   ("vertical_flip", .pBool true)]

/-- `self.preprocessing_parameters` defaults (lines 80-94). -/
def preprocessing_parameters_default : Dict :=
  [("augumentation", .pBool false), ("augumentation_factor", .pInt 1),
   ("normalization", .pBool true), ("histogram_equalization", .pBool false),
   ("histogram_cutoff_percentage", .pFloat (mkRat 1 50)),
   ("remove_vignette_algorithm", .pBool false), ("add_border", .pBool false),
   ("border_width", .pInt 20), ("per_channel_normalization", .pBool false),
   ("gaussian_blur", .pBool false), ("gaussian_blur_radius", .pInt 2),
   ("zca_whitening", .pBool false), ("connected_components", .pBool false)]

/-- One multiplicability-gated update of the scaling loop (lines 107-109),
applied to the image-augmentation dict entry itself. -/
def scaleValue (v factor : PVal) : Option PVal :=
  if digitCheck (pyRepr v) then pyMul v factor else some v

/-- The scaling loop of lines 106-110 on `self.augument`: each entry whose
value passes the digit test is multiplied in place.  The keyed Python loop is
a per-entry map because the dict's keys are pairwise distinct and each
iteration touches only the key it visits. -/
def scaleAugDict (d : Dict) (factor : PVal) : Option Dict :=
  d.mapM fun kv => (scaleValue kv.2 factor).map fun v => (kv.1, v)

/-- The scaling loop of lines 106-110 on `self.augument_mask`: the loop
iterates over `self.augument`'s keys and gates each update on
`self.augument`'s value at that key, multiplying the mask dict's own value.
A mask entry whose key the image dict lacks is never visited by the Python
loop, which the default `.pStr ""` (failing the digit test) reproduces. -/
def scaleMaskDict (aug mask : Dict) (factor : PVal) : Option Dict :=
  mask.mapM fun kv =>
    if digitCheck (pyRepr ((dictGet aug kv.1).getD (.pStr ""))) then
      (pyMul kv.2 factor).map fun v => (kv.1, v)
    else some kv

/-- The configuration part of `Trainer.__init__` (lines 58-110): merge the
caller overrides into the three default dicts, then, when the resolved
`augumentation_factor` compares unequal to `1`, run the scaling loop over both
augmentation dicts.  The result is
`(preprocessing_parameters, augument, augument_mask)`; `none` is an uncaught
`TypeError` raised by a multiplication. -/
def trainerInit (preprocessing_params augumentation_parameters : Dict) :
    Option (Dict × Dict × Dict) :=
  match dictGet (mergeDict preprocessing_parameters_default preprocessing_params)
      "augumentation_factor" with
  | none => none
  | some fv =>
    if pyNeOne fv then
      match scaleAugDict (mergeDict augument_default augumentation_parameters) fv,
        scaleMaskDict (mergeDict augument_default augumentation_parameters)
          (mergeDict augument_mask_default augumentation_parameters) fv with
      | some a, some m =>
        some (mergeDict preprocessing_parameters_default preprocessing_params, a, m)
      | _, _ => none
    else
      some (mergeDict preprocessing_parameters_default preprocessing_params,
        mergeDict augument_default augumentation_parameters,
        mergeDict augument_mask_default augumentation_parameters)

/-- Python `needle in hay` on strings. -/
def pyInStr (needle hay : String) : Bool := decide (needle.toList <:+: hay.toList)

/-- Python `str.upper()` (ASCII letters; the settings keywords are ASCII).
`String.toUpper` maps `Char.toUpper` over the characters; the list form is
used so that terms evaluate inside the kernel. -/
def pyToUpper (s : String) : String := String.mk (s.toList.map Char.toUpper)

/-- `Trainer.load_prep_from_settings_string` (lines 402-417): upper-case the
settings string, then enable every flag whose keyword occurs as a substring. -/
def load_prep_from_settings_string (prep : Dict) (settings : String) : Dict :=
  let s := pyToUpper settings
  let prep := if pyInStr "AUG" s then updateDict prep "augumentation" (.pBool true) else prep
  let prep := if pyInStr "HEQ" s then updateDict prep "histogram_equalization" (.pBool true) else prep
  let prep := if pyInStr "PCN" s then updateDict prep "per_channel_normalization" (.pBool true) else prep
  let prep := if pyInStr "CC" s then updateDict prep "connected_components" (.pBool true) else prep
  let prep := if pyInStr "ZCA" s then updateDict prep "zca_whitening" (.pBool true) else prep
  if pyInStr "GAUS" s then updateDict prep "gaussian_blur" (.pBool true) else prep

/-- Preprocessing overrides of the concrete scaling scenario:
`augumentation_factor = 2`. -/
def factor2_prep : Dict := [("augumentation_factor", .pInt 2)]

/-- The configuration triple produced by `Trainer.__init__` with
`preprocessing_params = {'augumentation_factor': 2}` and no augmentation
overrides. -/
def factor2_out : Dict × Dict × Dict := (trainerInit factor2_prep []).getD ([], [], [])

/-- An augmentation override carrying a negative (hence numeric) float. -/
def negCval_aug : Dict := [("cval", .pFloat (mkRat (-1) 2))]

/-! ## Preprocessing pipeline (`Trainer.__apply_preprocessings`)

The pipeline dispatches to image primitives living in `utils.py`,
`preprocessing/preprocessing_opencv.py` and Keras — code outside `src/` — so
it is embedded relative to an arbitrary interpretation of those primitives:
`S` is the type of one image, `M` of one mask, `Mean` of a per-channel mean,
`Shape` of an array shape, `Z` of a fitted ZCA generator. -/

/-- The primitive operations `__apply_preprocessings` delegates to. -/
structure PipelinePrims (S M Mean Shape Z : Type) where
  /-- `utils.apply_gaussian_blur(images, radius)`. -/
  gaussian_blur : List S → ℚ → List S
  /-- `utils.apply_histogram_equalization(images, cutoff)`. -/
  histogram_equalization : List S → ℚ → List S
  /-- `prep.connected_components_on_batch(np.array(images, dtype='f'), take)`,
  the float cast included. -/
  connected_components_on_batch : List S → ℕ → List S
  /-- numpy's `.shape` of an image array. -/
  shapeOf : List S → Shape
  /-- `utils.norm_per_channel(images)`: fit on the split, return the
  normalised images and the channel mean. -/
  norm_per_channel_fit : List S → List S × Mean
  /-- `utils.norm_per_channel(images, mean)`: apply a given mean, return the
  normalised images and a mean. -/
  norm_per_channel_apply : List S → Mean → List S × Mean
  /-- `utils.normalize(images, masks)`. -/
  normalize : List S → List M → List S × List M
  /-- `ImageDataGenerator(featurewise_center=True, zca_whitening=True).fit`. -/
  zca_fit : List S → Z
  /-- `gen.standardize(image)`. -/
  standardize : Z → S → S

/-- The six arrays of `self.data`. -/
structure SplitData (S M : Type) where
  train_images : List S
  train_masks : List M
  val_images : List S
  val_masks : List M
  test_images : List S
  test_masks : List M

/-- `self.data` together with `self.input_shape`. -/
structure PrepState (S M Shape : Type) where
  data : SplitData S M
  input_shape : Shape

/-- The entries of `preprocessing_parameters` that `__apply_preprocessings`
reads (the typed view of the resolved dict). -/
structure PrepConfig where
  gaussian_blur : Bool
  gaussian_blur_radius : ℚ
  histogram_equalization : Bool
  histogram_cutoff_percentage : ℚ
  connected_components : Bool
  per_channel_normalization : Bool
  normalization : Bool
  zca_whitening : Bool

/-- Lines 178-182: when `gaussian_blur` is set, blur the three `images`
arrays (the keys of `self.data` containing `'images'`). -/
def stepGaussianBlur {S M Mean Shape Z : Type} (P : PipelinePrims S M Mean Shape Z)
    (cfg : PrepConfig) (st : PrepState S M Shape) : PrepState S M Shape :=
  if cfg.gaussian_blur then
    { st with data := { st.data with
        train_images := P.gaussian_blur st.data.train_images cfg.gaussian_blur_radius
        val_images := P.gaussian_blur st.data.val_images cfg.gaussian_blur_radius
        test_images := P.gaussian_blur st.data.test_images cfg.gaussian_blur_radius } }
  else st

/-- Lines 185-189: histogram equalization with the configured cutoff on the
three `images` arrays. -/
def stepHistEq {S M Mean Shape Z : Type} (P : PipelinePrims S M Mean Shape Z)
    (cfg : PrepConfig) (st : PrepState S M Shape) : PrepState S M Shape :=
  if cfg.histogram_equalization then
    { st with data := { st.data with
        train_images := P.histogram_equalization st.data.train_images
          cfg.histogram_cutoff_percentage
        val_images := P.histogram_equalization st.data.val_images
          cfg.histogram_cutoff_percentage
        test_images := P.histogram_equalization st.data.test_images
          cfg.histogram_cutoff_percentage } }
  else st

/-- Lines 192-197: connected-components channel augmentation with `take=5` on
the three `images` arrays, then record the new `input_shape` from the
transformed training images. -/
def stepConnectedComponents {S M Mean Shape Z : Type} (P : PipelinePrims S M Mean Shape Z)
    (cfg : PrepConfig) (st : PrepState S M Shape) : PrepState S M Shape :=
  if cfg.connected_components then
    { data := { st.data with
        train_images := P.connected_components_on_batch st.data.train_images 5
        val_images := P.connected_components_on_batch st.data.val_images 5
        test_images := P.connected_components_on_batch st.data.test_images 5 }
      input_shape :=
        P.shapeOf (P.connected_components_on_batch st.data.train_images 5) }
  else st

/-- Lines 200-205: per-channel normalization — fit the mean on the training
images, rebind it through the validation call, use that for the test call. -/
def stepPerChannelNorm {S M Mean Shape Z : Type} (P : PipelinePrims S M Mean Shape Z)
    (cfg : PrepConfig) (st : PrepState S M Shape) : PrepState S M Shape :=
  if cfg.per_channel_normalization then
    { st with data := { st.data with
        train_images := (P.norm_per_channel_fit st.data.train_images).1
        val_images := (P.norm_per_channel_apply st.data.val_images
          (P.norm_per_channel_fit st.data.train_images).2).1
        test_images := (P.norm_per_channel_apply st.data.test_images
          (P.norm_per_channel_apply st.data.val_images
            (P.norm_per_channel_fit st.data.train_images).2).2).1 } }
  else st

/-- Lines 208-212: global normalization of images and masks on each split
(the source order is train, test, val; the splits are independent). -/
def stepNormalize {S M Mean Shape Z : Type} (P : PipelinePrims S M Mean Shape Z)
    (cfg : PrepConfig) (st : PrepState S M Shape) : PrepState S M Shape :=
  if cfg.normalization then
    { st with data := {
        train_images := (P.normalize st.data.train_images st.data.train_masks).1
        train_masks := (P.normalize st.data.train_images st.data.train_masks).2
        test_images := (P.normalize st.data.test_images st.data.test_masks).1
        test_masks := (P.normalize st.data.test_images st.data.test_masks).2
        val_images := (P.normalize st.data.val_images st.data.val_masks).1
        val_masks := (P.normalize st.data.val_images st.data.val_masks).2 } }
  else st

/-- Map `f` over the first `n` entries of a list, leaving the rest unchanged:
the `if i < len(...)` guard pattern of the ZCA loop (lines 222-228). -/
def mapFirstN {α : Type} : ℕ → (α → α) → List α → List α
  | 0, _, l => l
  | _ + 1, _, [] => []
  | n + 1, f, x :: xs => f x :: mapFirstN n f xs

/-- Lines 215-233: fit the ZCA generator on the first 250 training images,
then standardise every training image; a validation or test image is
standardised only while the running training index covers it. -/
def stepZcaWhitening {S M Mean Shape Z : Type} (P : PipelinePrims S M Mean Shape Z)
    (cfg : PrepConfig) (st : PrepState S M Shape) : PrepState S M Shape :=
  if cfg.zca_whitening then
    { st with data := { st.data with
        train_images := st.data.train_images.map
          (P.standardize (P.zca_fit (st.data.train_images.take 250)))
        val_images := mapFirstN st.data.train_images.length
          (P.standardize (P.zca_fit (st.data.train_images.take 250)))
          st.data.val_images
        test_images := mapFirstN st.data.train_images.length
          (P.standardize (P.zca_fit (st.data.train_images.take 250)))
          st.data.test_images } }
  else st

/-- `Trainer.__apply_preprocessings` (lines 175-233): the six flag-gated
blocks executed in source order on `self.data` / `self.input_shape`. -/
def applyPreprocessings {S M Mean Shape Z : Type} (P : PipelinePrims S M Mean Shape Z)
    (cfg : PrepConfig) (st : PrepState S M Shape) : PrepState S M Shape :=
  stepZcaWhitening P cfg (stepNormalize P cfg (stepPerChannelNorm P cfg
    (stepConnectedComponents P cfg (stepHistEq P cfg (stepGaussianBlur P cfg st)))))

/-! ## Weight saving (`Trainer.save`) -/

/-- Observable outcome of a completed `Trainer.save` call. -/
structure SaveOutcome where
  path : String
  weights_saved : Bool
  mkdir_called : Bool
  save_attempts : ℕ
  deriving Repr, DecidableEq

/-- `Trainer.save` (lines 304-320).  `write_ok` abstracts whether
`self.model.save_weights(path)` succeeds in the current file-system state,
`mkdir_ok` whether `os.mkdir('./' + model_dir)` succeeds (it raises, e.g.
`FileExistsError`, when the directory already exists).  The bare `except`
catches any write failure and runs `os.mkdir`; an exception raised inside
that handler propagates (`none`); the save is attempted exactly once. -/
def save (model_dir : String) (image_size : ℕ) (timestamp : String)
    (write_ok mkdir_ok : Bool) : Option SaveOutcome :=
  let path := model_dir ++ "UNet_model_" ++ toString image_size ++ "x"
      ++ toString image_size ++ "_" ++ timestamp ++ ".h5"
  if write_ok then some ⟨path, true, false, 1⟩
  else if mkdir_ok then some ⟨path, false, true, 1⟩
  else none

/-! ## Generator step counts (`Trainer.load_data`) -/

/-- `len()` of a Keras array iterator over `n` samples with batch size `b`:
the library computes `(n + b - 1) // b` (external Keras code, embedded from
its behaviour). -/
def iterator_len (n batch_size : ℕ) : ℕ := (n + batch_size - 1) / batch_size

/-- `self.train_steps = len(image_iterator)` (line 267), derived from the
training-image iterator alone. -/
def train_steps (n_train batch_size : ℕ) : ℕ := iterator_len n_train batch_size

/-- `self.valid_steps = len(valid_image_iterator)` (line 272), derived from
the validation-image iterator alone. -/
def valid_steps (n_val batch_size : ℕ) : ℕ := iterator_len n_val batch_size

section MetricLemmas

/-- Unfolded effect of a whole run of the accumulation loop, for an arbitrary
starting accumulator: every confusion-matrix cell and both Jaccard sums are
the plain sums of the per-sample quantities, and the above-threshold counter
counts the iterations whose *incoming* running sum already reached `13/20`. -/
theorem foldlM_metricStep_spec (samples : List Sample) :
    ∀ init st : MetricState, List.foldlM metricStep init samples = some st →
      st.tp = init.tp + (samples.map tpCount).sum ∧
      st.tn = init.tn + (samples.map tnCount).sum ∧
      st.fp = init.fp + (samples.map fpCount).sum ∧
      st.fn = init.fn + (samples.map fnCount).sum ∧
      st.jacc_sum = init.jacc_sum
        + (samples.map fun s => (interCount s : ℚ) / (unionCount s : ℚ)).sum ∧
      st.test_jacc_sum = init.test_jacc_sum + (samples.map jaccard_score).sum ∧
      st.test_jacc_above_thresh = init.test_jacc_above_thresh
        + isicCount init.test_jacc_sum (samples.map jaccard_score) := by
  induction samples with
  | nil =>
    intro init st h
    simp only [List.foldlM_nil, Option.pure_def, Option.some.injEq] at h
    subst h
    simp [isicCount]
  | cons s rest ih =>
    intro init st h
    rw [List.foldlM_cons] at h
    by_cases hb : bothClassesPresent s
    · have hstep : metricStep init s = some {
          jacc_sum := init.jacc_sum + (interCount s : ℚ) / (unionCount s : ℚ)
          tn := init.tn + tnCount s
          tp := init.tp + tpCount s
          fp := init.fp + fpCount s
          fn := init.fn + fnCount s
          test_jacc_sum := init.test_jacc_sum + jaccard_score s
          test_jacc_above_thresh :=
            if (13 : ℚ)/20 ≤ init.test_jacc_sum then init.test_jacc_above_thresh + 1
            else init.test_jacc_above_thresh } := by
        simp [metricStep, hb]
      rw [hstep] at h
      obtain ⟨h1, h2, h3, h4, h5, h6, h7⟩ := ih _ _ h
      simp only [List.map_cons, List.sum_cons, isicCount] at h1 h2 h3 h4 h5 h6 h7 ⊢
      refine ⟨by omega, by omega, by omega, by omega, by rw [h5]; ring, by rw [h6]; ring, ?_⟩
      by_cases hth : (13 : ℚ)/20 ≤ init.test_jacc_sum <;> simp only [hth, if_true, if_false] at h7 ⊢ <;> omega
    · simp [metricStep, hb] at h

/-- The loop terminates normally from any starting accumulator exactly when
every sample's pair of binarised masks exhibits both classes. -/
theorem foldlM_metricStep_isSome (samples : List Sample) :
    ∀ init : MetricState, (List.foldlM metricStep init samples).isSome
      ↔ ∀ s ∈ samples, bothClassesPresent s = true := by
  induction samples with
  | nil => intro init; simp
  | cons s rest ih =>
    intro init
    rw [List.foldlM_cons]
    by_cases hb : bothClassesPresent s
    · rcases hstep : metricStep init s with _ | st1
      · simp [metricStep, hb] at hstep
      · show (List.foldlM metricStep st1 rest).isSome = true ↔ _
        simp [ih, hb]
    · simp [metricStep, hb]

/-- The four cells of the per-sample confusion matrix partition the pixels. -/
theorem counts_partition (s : Sample) :
    tpCount s + fpCount s + fnCount s + tnCount s = s.length := by
  induction s with
  | nil => simp [tpCount, fpCount, fnCount, tnCount]
  | cons p rest ih =>
    obtain ⟨a, b⟩ := p
    simp only [tpCount, fpCount, fnCount, tnCount, List.countP_cons] at ih ⊢
    cases a <;> cases b <;> simp <;> omega

/-- The guard counter of line 364 counts exactly the sample indices `i` whose
*incoming* cumulative sum (the sum of the scores of the samples strictly
before `i`, plus the starting accumulator) has reached `13/20`. -/
theorem isicCount_eq_countP (xs : List ℚ) :
    ∀ acc : ℚ, isicCount acc xs
      = (List.range xs.length).countP
          (fun i => decide ((13 : ℚ)/20 ≤ acc + (xs.take i).sum)) := by
  induction xs with
  | nil => intro acc; simp [isicCount]
  | cons x xs ih =>
    intro acc
    rw [List.length_cons, List.range_succ_eq_map, List.countP_cons, List.countP_map]
    have hfun : ((fun i => decide ((13 : ℚ)/20 ≤ acc + ((x :: xs).take i).sum)) ∘ Nat.succ)
        = fun i => decide ((13 : ℚ)/20 ≤ (acc + x) + (xs.take i).sum) := by
      funext i
      simp [Function.comp, List.take_succ_cons, add_assoc]
    rw [hfun, ← ih (acc + x)]
    simp only [isicCount, List.take_zero, List.sum_nil, add_zero, decide_eq_true_eq]
    by_cases hc : (13 : ℚ)/20 ≤ acc <;> simp [hc] <;> omega

/-- Per-sample confusion cells summed over a list of equal-sized samples. -/
theorem counts_sum_total (samples : List Sample) :
    ∀ P : ℕ, (∀ s ∈ samples, s.length = P) →
      (samples.map tpCount).sum + (samples.map fpCount).sum
        + (samples.map fnCount).sum + (samples.map tnCount).sum = P * samples.length := by
  induction samples with
  | nil => intro P _; simp
  | cons s rest ih =>
    intro P hP
    have hs : tpCount s + fpCount s + fnCount s + tnCount s = P := by
      rw [counts_partition s]; exact hP s (List.mem_cons_self s rest)
    have hrest := ih P fun t ht => hP t (List.mem_cons_of_mem s ht)
    simp only [List.map_cons, List.sum_cons, List.length_cons, Nat.mul_succ]
    omega

end MetricLemmas

section MetricClaims

/-- C1.  For every run of `test_model_additional_metrics` over `N ≥ 1` test
samples that returns (`runMetrics = some st`), assuming the accumulated
denominators `tp+fn`, `tn+fp`, `tp+fp` are nonzero and every per-sample union
of the binarised masks is nonzero, the final metrics equal
`sensitivity = tp/(tp+fn)`, `specificity = tn/(tn+fp)`,
`accuracy = (tp+tn)/(tp+tn+fp+fn)`, `Dice = 2tp/(2tp+fp+fn)`,
`precision = tp/(tp+fp)`, where each count is the plain sum of the per-sample
confusion cells; the mean Jaccard is the sum of the per-sample
intersection/union ratios divided by `N`; the library Jaccard score is the sum
of the per-sample `sklearn.metrics.jaccard_score` values divided by `N`; and
the returned vector is
`[accuracy, jaccard, precision, sensitivity, specificity]`. -/
theorem test_metrics_final_formulas (samples : List Sample) (st : MetricState)
    (hrun : runMetrics samples = some st)
    (hN : 0 < samples.length)
    (hsens : st.tp + st.fn ≠ 0) (hspec : st.tn + st.fp ≠ 0) (hprec : st.tp + st.fp ≠ 0)
    (hu : ∀ s ∈ samples, unionCount s ≠ 0) :
    test_sensitivity st
      = ((samples.map tpCount).sum : ℚ)
        / (((samples.map tpCount).sum : ℚ) + ((samples.map fnCount).sum : ℚ)) ∧
    test_specifitivity st
      = ((samples.map tnCount).sum : ℚ)
        / (((samples.map tnCount).sum : ℚ) + ((samples.map fpCount).sum : ℚ)) ∧
    test_accuracy st
      = (((samples.map tpCount).sum : ℚ) + ((samples.map tnCount).sum : ℚ))
        / (((samples.map tpCount).sum : ℚ) + ((samples.map tnCount).sum : ℚ)
            + ((samples.map fpCount).sum : ℚ) + ((samples.map fnCount).sum : ℚ)) ∧
    test_dsc st
      = (2 * ((samples.map tpCount).sum : ℚ))
        / (2 * ((samples.map tpCount).sum : ℚ) + ((samples.map fpCount).sum : ℚ)
            + ((samples.map fnCount).sum : ℚ)) ∧
    test_precision st
      = ((samples.map tpCount).sum : ℚ)
        / (((samples.map tpCount).sum : ℚ) + ((samples.map fpCount).sum : ℚ)) ∧
    mean_jaccard_index st samples.length
      = (samples.map fun s => (interCount s : ℚ) / (unionCount s : ℚ)).sum
        / (samples.length : ℚ) ∧
    test_jaccard_score_mean st samples.length
      = (samples.map jaccard_score).sum / (samples.length : ℚ) ∧
    returned_vector st samples.length
      = [test_accuracy st, test_jaccard_score_mean st samples.length, test_precision st,
         test_sensitivity st, test_specifitivity st] := by
  obtain ⟨h1, h2, h3, h4, h5, h6, -⟩ :=
    foldlM_metricStep_spec samples initMetricState st hrun
  simp only [initMetricState, Nat.zero_add, zero_add] at h1 h2 h3 h4 h5 h6
  refine ⟨?_, ?_, ?_, ?_, ?_, ?_, ?_, rfl⟩
  · rw [test_sensitivity, h1, h4]
  · rw [test_specifitivity, h2, h3]
  · rw [test_accuracy, h1, h2, h3, h4]
  · rw [test_dsc, h1, h3, h4]
  · rw [test_precision, h1, h3]
  · rw [mean_jaccard_index, h5]
  · rw [test_jaccard_score_mean, h6]

/-- C2.  The reported `isic_eval_score` equals (the number of samples at which
the cumulative running sum of the library-computed Jaccard scores of the
*preceding* samples has reached `0.65` — the `>=` comparison of line 364 reads
`test_jacc_sum` before the current sample's score is added on line 367)
divided by `N`: the comparison is against the accumulating sum, not the
sample's own Jaccard score. -/
theorem isic_score_counts_running_sum (samples : List Sample) (st : MetricState)
    (hrun : runMetrics samples = some st) (hN : 0 < samples.length) :
    isic_eval_score st samples.length
      = (((List.range samples.length).countP
            (fun i => decide ((13 : ℚ)/20 ≤ ((samples.map jaccard_score).take i).sum)) : ℕ) : ℚ)
        / (samples.length : ℚ) := by
  obtain ⟨-, -, -, -, -, -, h7⟩ :=
    foldlM_metricStep_spec samples initMetricState st hrun
  rw [isic_eval_score, h7]
  simp [initMetricState, isicCount_eq_countP]

/-- C4.  Over `N` test samples of `P` pixels each, a completed metric pass
accumulates confusion counts with `tp + fp + fn + tn = P * N`. -/
theorem confusion_counts_total (samples : List Sample) (st : MetricState) (P : ℕ)
    (hrun : runMetrics samples = some st)
    (hP : ∀ s ∈ samples, s.length = P) :
    st.tp + st.fp + st.fn + st.tn = P * samples.length := by
  obtain ⟨h1, h2, h3, h4, -, -, -⟩ :=
    foldlM_metricStep_spec samples initMetricState st hrun
  simp only [initMetricState, Nat.zero_add, zero_add] at h1 h2 h3 h4
  rw [h1, h2, h3, h4]
  exact counts_sum_total samples P hP

/-- C10.  The metric pass completes without error exactly when, for every test
sample, the pair of flattened binarised masks contains both a positive and a
negative pixel between them; in particular, for a sample whose ground truth
and prediction are both entirely positive, the four-way unpack of the 1×1
confusion matrix fails and the whole pass errors. -/
theorem metrics_pass_completes_iff_two_classes :
    (∀ samples : List Sample,
      (runMetrics samples).isSome = true ↔ ∀ s ∈ samples, bothClassesPresent s = true)
    ∧ runMetrics [[(true, true), (true, true)]] = none := by
  constructor
  · intro samples
    exact foldlM_metricStep_isSome samples initMetricState
  · decide

end MetricClaims

section MetricWitnesses

theorem exState_run : runMetrics exSamples = some exState := by
  norm_num [runMetrics, exSamples, exState, metricStep, initMetricState, jaccard_score,
    interCount, unionCount, tpCount, tnCount, fpCount, fnCount, bothClassesPresent,
    List.countP, List.countP.go, List.foldlM]

theorem test_metrics_final_formulas_witness :
    test_sensitivity exState
      = ((exSamples.map tpCount).sum : ℚ)
        / (((exSamples.map tpCount).sum : ℚ) + ((exSamples.map fnCount).sum : ℚ)) :=
  (test_metrics_final_formulas exSamples exState exState_run (by decide) (by decide)
    (by decide) (by decide) (by decide)).1

theorem isic_score_counts_running_sum_witness :
    isic_eval_score exState exSamples.length
      = (((List.range exSamples.length).countP
            (fun i => decide ((13 : ℚ)/20 ≤ ((exSamples.map jaccard_score).take i).sum)) : ℕ) : ℚ)
        / (exSamples.length : ℚ) :=
  isic_score_counts_running_sum exSamples exState exState_run (by decide)

theorem confusion_counts_total_witness :
    exState.tp + exState.fp + exState.fn + exState.tn = 2 * exSamples.length :=
  confusion_counts_total exSamples exState 2 exState_run (by decide)

theorem metrics_pass_completes_iff_two_classes_witness :
    (runMetrics exSamples).isSome = true :=
  (metrics_pass_completes_iff_two_classes.1 exSamples).mpr (by decide)

end MetricWitnesses

section ConfigLemmas

/-- An in-place dict update keeps the key list; an appending update adds a key
that was not present. -/
theorem keys_updateDict (d : Dict) (k : String) (v : PVal) :
    (updateDict d k v).map Prod.fst = d.map Prod.fst
    ∨ ((updateDict d k v).map Prod.fst = d.map Prod.fst ++ [k] ∧ k ∉ d.map Prod.fst) := by
  unfold updateDict
  split
  · left
    rw [List.map_map]
    refine List.map_congr_left fun kv _ => ?_
    simp only [Function.comp_apply]
    split
    · next h => exact (eq_of_beq h).symm
    · rfl
  · next h =>
    right
    refine ⟨by simp, fun hk => h ?_⟩
    rw [List.any_eq_true]
    obtain ⟨kv, hkv, hfst⟩ := List.mem_map.mp hk
    exact ⟨kv, hkv, by simp [hfst]⟩

/-- Dict updates preserve distinctness of keys. -/
theorem nodupKeys_updateDict (d : Dict) (k : String) (v : PVal)
    (h : (d.map Prod.fst).Nodup) : ((updateDict d k v).map Prod.fst).Nodup := by
  rcases keys_updateDict d k v with heq | ⟨heq, hnin⟩
  · rw [heq]; exact h
  · rw [heq, List.nodup_append]
    exact ⟨h, List.nodup_singleton k, by simpa using hnin⟩

/-- Merging overrides preserves distinctness of keys. -/
theorem nodupKeys_mergeDict (overrides : Dict) :
    ∀ d : Dict, (d.map Prod.fst).Nodup → ((mergeDict d overrides).map Prod.fst).Nodup := by
  induction overrides with
  | nil => intro d h; exact h
  | cons kv rest ih =>
    intro d h
    exact ih (updateDict d kv.1 kv.2) (nodupKeys_updateDict d kv.1 kv.2 h)

/-- On a dict with distinct keys, lookup of a stored entry returns its value. -/
theorem dictGet_of_mem (d : Dict) :
    ∀ kv : String × PVal, (d.map Prod.fst).Nodup → kv ∈ d → dictGet d kv.1 = some kv.2 := by
  induction d with
  | nil => intro kv _ hmem; cases hmem
  | cons hd tl ih =>
    intro kv hnd hmem
    rw [List.map_cons, List.nodup_cons] at hnd
    rcases List.mem_cons.mp hmem with rfl | htl
    · simp [dictGet]
    · have hne : (hd.1 == kv.1) = false := by
        rw [beq_eq_false_iff_ne]
        intro hkk
        exact hnd.1 (hkk ▸ List.mem_map.mpr ⟨kv, htl, rfl⟩)
      rw [dictGet, List.find?_cons_of_neg, ← dictGet]
      · exact ih kv hnd.2 htl
      · simp [hne]

/-- `mapM` over `Option` only depends on the values of the function on the
list. -/
theorem mapM_option_congr {α β : Type} (l : List α) (f g : α → Option β)
    (h : ∀ a ∈ l, f a = g a) : l.mapM f = l.mapM g := by
  induction l with
  | nil => rfl
  | cons a tl ih =>
    rw [List.mapM_cons, List.mapM_cons, h a (List.mem_cons_self a tl),
      ih fun b hb => h b (List.mem_cons_of_mem a hb)]

/-- When the mask dict coincides with the image dict (which
`Trainer.__init__` guarantees), the keyed mask-scaling loop is the image
scaling loop. -/
theorem scaleMaskDict_self (aug : Dict) (factor : PVal)
    (hnd : (aug.map Prod.fst).Nodup) :
    scaleMaskDict aug aug factor = scaleAugDict aug factor := by
  unfold scaleMaskDict scaleAugDict
  refine mapM_option_congr aug _ _ fun kv hkv => ?_
  rw [dictGet_of_mem aug kv hnd hkv]
  by_cases hc : digitCheck (pyRepr kv.2)
  · simp [scaleValue, hc]
  · simp [scaleValue, hc]

/-- Lookup through a successful scaling pass: each entry is rewritten to its
gated multiplication. -/
theorem dictGet_scaleAugDict (factor : PVal) (d : Dict) :
    ∀ d' : Dict, (d.map Prod.fst).Nodup → scaleAugDict d factor = some d' →
      ∀ k v, dictGet d k = some v → dictGet d' k = scaleValue v factor := by
  induction d with
  | nil =>
    intro d' _ _ k v hget
    simp [dictGet] at hget
  | cons hd tl ih =>
    intro d' hnd hsc k v hget
    rw [List.map_cons, List.nodup_cons] at hnd
    rw [scaleAugDict, List.mapM_cons] at hsc
    rcases hv : scaleValue hd.2 factor with _ | w
    · rw [hv] at hsc; simp at hsc
    · rw [hv] at hsc
      rcases htl : tl.mapM (fun kv => (scaleValue kv.2 factor).map fun v => (kv.1, v))
          with _ | tl'
      · rw [htl] at hsc; simp at hsc
      · rw [htl] at hsc
        have hd' : ((hd.1, w) :: tl' : Dict) = d' := by
          simpa using hsc
        subst hd'
        by_cases hk : (hd.1 == k) = true
        · have hval : v = hd.2 := by
            rw [dictGet, List.find?_cons_of_pos] at hget
            · simpa using hget.symm
            · exact hk
          rw [dictGet, List.find?_cons_of_pos]
          · simp [hval, hv]
          · exact hk
        · have hget' : dictGet tl k = some v := by
            rw [dictGet, List.find?_cons_of_neg, ← dictGet] at hget
            · exact hget
            · exact hk
          have hrec := ih tl' hnd.2 (by rw [scaleAugDict]; exact htl) k v hget'
          rw [dictGet, List.find?_cons_of_neg, ← dictGet]
          · exact hrec
          · exact hk

end ConfigLemmas

section ConfigClaims

/-- C5.  `load_prep_from_settings_string` matches keyword substrings
case-insensitively and cumulatively: on the default preprocessing parameters,
the input string `"aug_heq_cc"` sets exactly the flags `augumentation`,
`histogram_equalization` and `connected_components` to `True` while every
other preprocessing parameter keeps its prior default value. -/
theorem load_prep_settings_aug_heq_cc :
    load_prep_from_settings_string preprocessing_parameters_default "aug_heq_cc"
      = [("augumentation", .pBool true), ("augumentation_factor", .pInt 1),
         ("normalization", .pBool true), ("histogram_equalization", .pBool true),
         ("histogram_cutoff_percentage", .pFloat (mkRat 1 50)),
         ("remove_vignette_algorithm", .pBool false), ("add_border", .pBool false),
         ("border_width", .pInt 20), ("per_channel_normalization", .pBool false),
         ("gaussian_blur", .pBool false), ("gaussian_blur_radius", .pInt 2),
         ("zca_whitening", .pBool false), ("connected_components", .pBool true)] := by
  decide

/-- C9.  After any successful `Trainer.__init__`, the image-augmentation
configuration and the mask-augmentation configuration are equal as mappings:
every override is written into both and every factor-scaled value is scaled
identically in both. -/
theorem augument_mask_configs_equal (po ao : Dict) (out : Dict × Dict × Dict)
    (hinit : trainerInit po ao = some out) : out.2.1 = out.2.2 := by
  have hdef : augument_mask_default = augument_default := rfl
  unfold trainerInit at hinit
  rw [hdef] at hinit
  rcases hget : dictGet (mergeDict preprocessing_parameters_default po)
      "augumentation_factor" with _ | fv
  · rw [hget] at hinit
    exact Option.noConfusion hinit
  · rw [hget] at hinit
    dsimp only at hinit
    by_cases hne : pyNeOne fv = true
    · rw [if_pos hne,
        scaleMaskDict_self (mergeDict augument_default ao) fv
          (nodupKeys_mergeDict ao augument_default (by decide))] at hinit
      rcases hsc : scaleAugDict (mergeDict augument_default ao) fv with _ | a
      · rw [hsc] at hinit
        exact Option.noConfusion hinit
      · rw [hsc] at hinit
        have hout : (mergeDict preprocessing_parameters_default po, a, a) = out :=
          Option.some.inj hinit
        rw [← hout]
    · rw [if_neg hne] at hinit
      have hout : (mergeDict preprocessing_parameters_default po,
          mergeDict augument_default ao, mergeDict augument_default ao) = out :=
        Option.some.inj hinit
      rw [← hout]

theorem augument_mask_configs_equal_witness : factor2_out.2.1 = factor2_out.2.2 :=
  augument_mask_configs_equal factor2_prep [] factor2_out rfl

/-- C3, counterexample.  With `augumentation_factor = 2` and the numeric
(negative decimal) override `cval = -0.5`, the resolved image-augmentation
configuration leaves `cval` at `-0.5`: the digit test of line 108 rejects the
minus sign of `str(-0.5)`, so this numeric value is *not* multiplied by the
factor (the multiplied value would have been `-1.0 ≠ -0.5`). -/
theorem negative_numeric_value_not_scaled :
    (trainerInit factor2_prep negCval_aug).map (fun o => dictGet o.2.1 "cval")
      = some (some (.pFloat (mkRat (-1) 2)))
    ∧ pyMul (.pFloat (mkRat (-1) 2)) (.pInt 2)
        = some (.pFloat (mkRat (-1) 2 * ((2 : ℤ) : ℚ)))
    ∧ mkRat (-1) 2 * ((2 : ℤ) : ℚ) = -1
    ∧ PVal.pFloat (mkRat (-1) 2) ≠ .pFloat (-1) := by
  refine ⟨rfl, rfl, by norm_num [Rat.mkRat_eq_div], ?_⟩
  simp only [ne_eq, PVal.pFloat.injEq]
  norm_num [Rat.mkRat_eq_div]

/-- C3, amended.  For every `Trainer` construction that succeeds with a
resolved `augumentation_factor` comparing unequal to `1`: every augmentation
option whose value's Python string form passes the digit test of line 108
(all digits after removing at most one decimal point — this covers every
nonnegative integer and plain nonnegative decimal, but not negative numbers)
is multiplied by the factor in both the image and the mask configuration,
and every other value — booleans, non-digit strings, negative numbers — is
left unchanged in both.  In particular, with factor `2`, the base value
`zoom_range = 0.1` resolves to `0.2` and `horizontal_flip = True` remains
`True`. -/
theorem augumentation_factor_scaling (po ao : Dict) (out : Dict × Dict × Dict)
    (hinit : trainerInit po ao = some out)
    (fv : PVal) (hfv : dictGet out.1 "augumentation_factor" = some fv)
    (hne : pyNeOne fv = true) :
    (∀ k v, dictGet (mergeDict augument_default ao) k = some v →
      (digitCheck (pyRepr v) = true →
        dictGet out.2.1 k = pyMul v fv ∧ dictGet out.2.2 k = pyMul v fv) ∧
      (digitCheck (pyRepr v) = false →
        dictGet out.2.1 k = some v ∧ dictGet out.2.2 k = some v)) ∧
    dictGet factor2_out.2.1 "zoom_range" = some (.pFloat (mkRat 1 5)) ∧
    dictGet factor2_out.2.2 "zoom_range" = some (.pFloat (mkRat 1 5)) ∧
    dictGet factor2_out.2.1 "horizontal_flip" = some (.pBool true) := by
  have hnd : ((mergeDict augument_default ao).map Prod.fst).Nodup :=
    nodupKeys_mergeDict ao augument_default (by decide)
  have hdef : augument_mask_default = augument_default := rfl
  unfold trainerInit at hinit
  rw [hdef] at hinit
  refine ⟨?_, ?_, ?_, rfl⟩
  · intro k v hget
    rcases hget' : dictGet (mergeDict preprocessing_parameters_default po)
        "augumentation_factor" with _ | fv'
    · rw [hget'] at hinit
      exact Option.noConfusion hinit
    · rw [hget'] at hinit
      dsimp only at hinit
      have hfv' : fv' = fv := by
        by_cases hne' : pyNeOne fv' = true
        · rw [if_pos hne'] at hinit
          rcases hsc : scaleAugDict (mergeDict augument_default ao) fv' with _ | a
          · rw [hsc,
              scaleMaskDict_self (mergeDict augument_default ao) fv' hnd] at hinit
            rw [hsc] at hinit
            exact Option.noConfusion hinit
          · rcases hsm : scaleMaskDict (mergeDict augument_default ao)
                (mergeDict augument_default ao) fv' with _ | m
            · rw [hsc, hsm] at hinit
              exact Option.noConfusion hinit
            · rw [hsc, hsm] at hinit
              have hout := Option.some.inj hinit
              rw [← hout] at hfv
              exact Option.some.inj (hget'.symm.trans hfv)
        · rw [if_neg hne'] at hinit
          have hout := Option.some.inj hinit
          rw [← hout] at hfv
          exact Option.some.inj (hget'.symm.trans hfv)
      subst hfv'
      rw [if_pos hne] at hinit
      rw [scaleMaskDict_self (mergeDict augument_default ao) fv' hnd] at hinit
      rcases hsc : scaleAugDict (mergeDict augument_default ao) fv' with _ | a
      · rw [hsc] at hinit
        exact Option.noConfusion hinit
      · rw [hsc] at hinit
        have hout := Option.some.inj hinit
        have hlook := dictGet_scaleAugDict fv' (mergeDict augument_default ao) a hnd hsc k v hget
        constructor
        · intro hd
          rw [← hout]
          have : scaleValue v fv' = pyMul v fv' := by rw [scaleValue, if_pos hd]
          exact ⟨hlook.trans this, hlook.trans this⟩
        · intro hd
          rw [← hout]
          have : scaleValue v fv' = some v := by rw [scaleValue, if_neg (by simp [hd])]
          exact ⟨hlook.trans this, hlook.trans this⟩
  · rw [show dictGet factor2_out.2.1 "zoom_range"
        = some (.pFloat (mkRat 1 10 * ((2 : ℤ) : ℚ))) from rfl]
    norm_num [Rat.mkRat_eq_div]
  · rw [show dictGet factor2_out.2.2 "zoom_range"
        = some (.pFloat (mkRat 1 10 * ((2 : ℤ) : ℚ))) from rfl]
    norm_num [Rat.mkRat_eq_div]

theorem augumentation_factor_scaling_witness :
    dictGet factor2_out.2.1 "rotation_range" = pyMul (.pInt 30) (.pInt 2)
    ∧ dictGet factor2_out.2.2 "rotation_range" = pyMul (.pInt 30) (.pInt 2)
    ∧ dictGet factor2_out.2.1 "fill_mode" = some (.pStr "constant") := by
  obtain ⟨hgen, -, -, -⟩ :=
    augumentation_factor_scaling factor2_prep [] factor2_out rfl (.pInt 2) rfl rfl
  obtain ⟨h30, -⟩ := hgen "rotation_range" (.pInt 30) rfl
  obtain ⟨-, hfm⟩ := hgen "fill_mode" (.pStr "constant") rfl
  exact ⟨(h30 rfl).1, (h30 rfl).2, (hfm rfl).1⟩

end ConfigClaims

section PipelineClaims

/-- C6.  `__apply_preprocessings` is the composition, in source order, of six
flag-gated blocks — (1) Gaussian blur, (2) histogram equalization with the
configured cutoff, (3) connected-components channel augmentation with
`take = 5` updating the recorded input shape, (4) per-channel normalization
propagating the training split's channel mean to validation and test, (5)
global normalization of images and masks, (6) ZCA whitening fit on the first
250 training samples and applied sample-by-sample — where a block whose flag
is false leaves the state unchanged and a block whose flag is true performs
exactly its transformation. -/
theorem apply_preprocessings_structure {S M Mean Shape Z : Type}
    (P : PipelinePrims S M Mean Shape Z) (cfg : PrepConfig) (st : PrepState S M Shape) :
    applyPreprocessings P cfg st
      = stepZcaWhitening P cfg (stepNormalize P cfg (stepPerChannelNorm P cfg
          (stepConnectedComponents P cfg (stepHistEq P cfg (stepGaussianBlur P cfg st))))) ∧
    stepGaussianBlur P { cfg with gaussian_blur := false } st = st ∧
    stepHistEq P { cfg with histogram_equalization := false } st = st ∧
    stepConnectedComponents P { cfg with connected_components := false } st = st ∧
    stepPerChannelNorm P { cfg with per_channel_normalization := false } st = st ∧
    stepNormalize P { cfg with normalization := false } st = st ∧
    stepZcaWhitening P { cfg with zca_whitening := false } st = st ∧
    stepGaussianBlur P { cfg with gaussian_blur := true } st
      = { st with data := { st.data with
          train_images := P.gaussian_blur st.data.train_images cfg.gaussian_blur_radius
          val_images := P.gaussian_blur st.data.val_images cfg.gaussian_blur_radius
          test_images := P.gaussian_blur st.data.test_images cfg.gaussian_blur_radius } } ∧
    stepHistEq P { cfg with histogram_equalization := true } st
      = { st with data := { st.data with
          train_images := P.histogram_equalization st.data.train_images
            cfg.histogram_cutoff_percentage
          val_images := P.histogram_equalization st.data.val_images
            cfg.histogram_cutoff_percentage
          test_images := P.histogram_equalization st.data.test_images
            cfg.histogram_cutoff_percentage } } ∧
    stepConnectedComponents P { cfg with connected_components := true } st
      = { data := { st.data with
          train_images := P.connected_components_on_batch st.data.train_images 5
          val_images := P.connected_components_on_batch st.data.val_images 5
          test_images := P.connected_components_on_batch st.data.test_images 5 }
          input_shape :=
            P.shapeOf (P.connected_components_on_batch st.data.train_images 5) } ∧
    stepPerChannelNorm P { cfg with per_channel_normalization := true } st
      = { st with data := { st.data with
          train_images := (P.norm_per_channel_fit st.data.train_images).1
          val_images := (P.norm_per_channel_apply st.data.val_images
            (P.norm_per_channel_fit st.data.train_images).2).1
          test_images := (P.norm_per_channel_apply st.data.test_images
            (P.norm_per_channel_apply st.data.val_images
              (P.norm_per_channel_fit st.data.train_images).2).2).1 } } ∧
    stepNormalize P { cfg with normalization := true } st
      = { st with data := {
          train_images := (P.normalize st.data.train_images st.data.train_masks).1
          train_masks := (P.normalize st.data.train_images st.data.train_masks).2
          test_images := (P.normalize st.data.test_images st.data.test_masks).1
          test_masks := (P.normalize st.data.test_images st.data.test_masks).2
          val_images := (P.normalize st.data.val_images st.data.val_masks).1
          val_masks := (P.normalize st.data.val_images st.data.val_masks).2 } } ∧
    stepZcaWhitening P { cfg with zca_whitening := true } st
      = { st with data := { st.data with
          train_images := st.data.train_images.map
            (P.standardize (P.zca_fit (st.data.train_images.take 250)))
          val_images := mapFirstN st.data.train_images.length
            (P.standardize (P.zca_fit (st.data.train_images.take 250)))
            st.data.val_images
          test_images := mapFirstN st.data.train_images.length
            (P.standardize (P.zca_fit (st.data.train_images.take 250)))
            st.data.test_images } } :=
  ⟨rfl, rfl, rfl, rfl, rfl, rfl, rfl, rfl, rfl, rfl, rfl, rfl, rfl⟩

end PipelineClaims

section SaveClaims

/-- C7, counterexample.  When writing the weights fails and the directory
creation inside the bare `except` handler also fails (for instance because
the directory already exists and the write failed for another reason), the
handler's exception propagates to the caller and `save` returns nothing —
contradicting the claim that every invocation with a failing write still
returns the constructed path. -/
theorem save_write_and_mkdir_failure_raises :
    save "src/models/" 256 "01012026-000000" false false = none := rfl

/-- C7, amended.  For every invocation of `save` in which writing the weights
file fails and the directory creation inside the handler succeeds, the
exception is caught, the model directory is created, the save is not retried
(exactly one attempt, no weights written), and `save` still returns the
constructed weight-file path `{model_dir}UNet_model_{size}x{size}_{ts}.h5`. -/
theorem save_swallows_write_failure (model_dir : String) (image_size : ℕ)
    (timestamp : String) :
    save model_dir image_size timestamp false true
      = some ⟨model_dir ++ "UNet_model_" ++ toString image_size ++ "x"
          ++ toString image_size ++ "_" ++ timestamp ++ ".h5", false, true, 1⟩ := rfl

end SaveClaims

section StepClaims

/-- The Keras iterator length `(n + b - 1) // b` is the ceiling of `n / b`. -/
theorem iterator_len_eq_ceil (n b : ℕ) (hb : 0 < b) :
    ⌈(n : ℚ) / (b : ℚ)⌉ = (iterator_len n b : ℤ) := by
  have hb' : (0 : ℚ) < (b : ℚ) := by exact_mod_cast hb
  have hdm := Nat.div_add_mod (n + b - 1) b
  have hm : (n + b - 1) % b < b := Nat.mod_lt _ hb
  rw [iterator_len]
  set k := (n + b - 1) / b with hk
  have hA : n ≤ b * k := by omega
  have hB : b * k < n + b := by omega
  rw [Int.ceil_eq_iff]
  constructor
  · rw [lt_div_iff₀ hb']
    have h1 : (b : ℚ) * k < n + b := by exact_mod_cast hB
    push_cast
    linarith
  · rw [div_le_iff₀ hb']
    have h2 : (n : ℚ) ≤ b * k := by exact_mod_cast hA
    push_cast
    linarith

/-- C8.  For every loaded dataset and batch size `b > 0`, the number of
training steps per epoch is `⌈n_train / b⌉` and the number of validation
steps is `⌈n_val / b⌉`, each obtained as the length of its own split's
iterator. -/
theorem steps_per_epoch_are_ceil (n_train n_val b : ℕ) (hb : 0 < b) :
    (train_steps n_train b : ℤ) = ⌈(n_train : ℚ) / (b : ℚ)⌉
    ∧ (valid_steps n_val b : ℤ) = ⌈(n_val : ℚ) / (b : ℚ)⌉ :=
  ⟨(iterator_len_eq_ceil n_train b hb).symm, (iterator_len_eq_ceil n_val b hb).symm⟩

theorem steps_per_epoch_are_ceil_witness :
    (train_steps 10 8 : ℤ) = ⌈((10 : ℕ) : ℚ) / ((8 : ℕ) : ℚ)⌉
    ∧ (valid_steps 3 8 : ℤ) = ⌈((3 : ℕ) : ℚ) / ((8 : ℕ) : ℚ)⌉ :=
  steps_per_epoch_are_ceil 10 3 8 (by decide)

end StepClaims

end LesionSeg
